import Mathlib

/-!
# Time Rush storefront: storage and domain layer

A shallow embedding of `assets/js/store.js` (products, settings, cart and admin
credential kept in `localStorage`) and of the data paths of `assets/js/admin.js`
(product save, export, import).

Modelling conventions.

* JavaScript values are the inductive type `JSValue`.  Objects are association lists in
  insertion order and are read through `get` (first binding of a key); the prototype chain
  is not modelled.
* Numbers are `JSNum`: exact rationals extended with `NaN` and the two infinities.  Rounding
  to binary64, overflow to infinity and the sign of zero are not modelled.
* Strings are Lean strings.  `trim` uses the ECMAScript white space and line terminator code
  points.  Unicode lower-casing and the rendering of numbers as text are supplied by a
  `Host`, together with the facts about them the proofs rely on.
* A `localStorage` entry is seen through `JSON.parse` (`Entry`), and writing
  `JSON.stringify v` stores the value `jsonRoundTrip v`.  Storage calls are assumed not to
  throw.
-/

namespace TimeRush

/-! ## Numbers -/

/-- ECMAScript numbers: `NaN`, the infinities, and finite values as exact rationals. -/
inductive JSNum
  | nan
  | posInf
  | negInf
  | fin (q : ℚ)
  deriving DecidableEq

namespace JSNum

/-- `Number.isFinite`. -/
def isFinite : JSNum → Bool
  | fin _ => true
  | _ => false

/-- ToBoolean on a number: `NaN` and zero are falsy. -/
def truthy : JSNum → Bool
  | nan => false
  | fin q => decide (q ≠ 0)
  | _ => true

/-- The `+` operator on numbers. -/
def add : JSNum → JSNum → JSNum
  | fin a, fin b => fin (a + b)
  | nan, _ => nan
  | _, nan => nan
  | posInf, negInf => nan
  | negInf, posInf => nan
  | posInf, _ => posInf
  | _, posInf => posInf
  | negInf, _ => negInf
  | _, negInf => negInf

/-- The `<=` operator on numbers: false as soon as one side is `NaN`. -/
def le : JSNum → JSNum → Bool
  | fin a, fin b => decide (a ≤ b)
  | nan, _ => false
  | _, nan => false
  | negInf, _ => true
  | _, posInf => true
  | _, _ => false

end JSNum

/-! ## Values -/

/-- JavaScript values as far as JSON data and the code under study produce them. -/
inductive JSValue
  | undefined
  | null
  | bool (b : Bool)
  | num (n : JSNum)
  | str (s : String)
  | arr (xs : List JSValue)
  | obj (fields : List (String × JSValue))

namespace JSValue

/-- ToBoolean. -/
def truthy : JSValue → Bool
  | undefined => false
  | null => false
  | bool b => b
  | num n => n.truthy
  | str s => decide (s ≠ "")
  | arr _ => true
  | obj _ => true

/-- `Array.isArray`. -/
def isArray : JSValue → Bool
  | arr _ => true
  | _ => false

/-- The test `typeof v === 'object'`. -/
def typeofObject : JSValue → Bool
  | null => true
  | arr _ => true
  | obj _ => true
  | _ => false

/-- The test `v === false`. -/
def isFalse : JSValue → Bool
  | bool false => true
  | _ => false

end JSValue

open JSValue

/-- The operator `a && b`. -/
def jsAnd (a b : JSValue) : JSValue := if a.truthy then b else a

/-- The operator `a || b`. -/
def jsOr (a b : JSValue) : JSValue := if a.truthy then a else b

/-- First binding of key `k` in a field list, `undefined` when there is none. -/
def getField (fs : List (String × JSValue)) (k : String) : JSValue :=
  (fs.lookup k).getD .undefined

/-- The keys of a field list, in order. -/
def fieldKeys (fs : List (String × JSValue)) : List String := fs.map Prod.fst

/-- The array index a property key denotes, if it is one below `n`. -/
def indexOfKey (n : Nat) (k : String) : Option Nat :=
  (List.range n).find? (fun i => toString i = k)

/-- Property read `v.k` (or `v[k]`).  Arrays answer `length` and their indices; strings and
the other primitives answer `undefined` for every key the code under study reads. -/
def get : JSValue → String → JSValue
  | .obj fs, k => getField fs k
  | .arr xs, k =>
      if k = "length" then .num (.fin xs.length)
      else match indexOfKey xs.length k with
        | some i => xs.getD i .undefined
        | none => .undefined
  | _, _ => .undefined

/-- The keys a `for (k in v)` loop visits when `v` is an object or an array; the loops under
study run over no other value. -/
def ownKeys : JSValue → List String
  | .obj fs => fieldKeys fs
  | .arr xs => (List.range xs.length).map toString
  | _ => []

/-- Assignment `o[k] = v` on a field list: overwrite in place, else append. -/
def setField : List (String × JSValue) → String → JSValue → List (String × JSValue)
  | [], k, v => [(k, v)]
  | (k', v') :: r, k, v => if k' = k then (k, v) :: r else (k', v') :: setField r k v

/-- Statement `delete o[k]` on a field list. -/
def deleteField (fs : List (String × JSValue)) (k : String) : List (String × JSValue) :=
  fs.filter (fun e => decide (e.1 ≠ k))

/-! ## Strings -/

/-- ECMAScript `WhiteSpace` and `LineTerminator` code points (what `trim` and `\s` match). -/
def isWhiteSpace (c : Char) : Bool :=
  let n := c.toNat
  decide (n = 0x9 ∨ n = 0xA ∨ n = 0xB ∨ n = 0xC ∨ n = 0xD ∨ n = 0x20 ∨ n = 0xA0 ∨ n = 0x1680
    ∨ (0x2000 ≤ n ∧ n ≤ 0x200A) ∨ n = 0x2028 ∨ n = 0x2029 ∨ n = 0x202F ∨ n = 0x205F
    ∨ n = 0x3000 ∨ n = 0xFEFF)

/-- Trimming of a character list at both ends. -/
def trimChars (cs : List Char) : List Char :=
  (cs.dropWhile isWhiteSpace).rdropWhile isWhiteSpace

/-- `String.prototype.trim`. -/
def trim (s : String) : String := ⟨trimChars s.data⟩

/-- Value of a digit character in the given base. -/
def digitOf (base : Nat) (c : Char) : Option Nat :=
  let n := c.toNat
  let d : Option Nat :=
    if 48 ≤ n ∧ n ≤ 57 then some (n - 48)
    else if 97 ≤ n ∧ n ≤ 102 then some (n - 87)
    else if 65 ≤ n ∧ n ≤ 70 then some (n - 55)
    else none
  match d with
  | some v => if v < base then some v else none
  | none => none

/-- Value of a non-empty run of digits; `none` when empty or when a character is no digit. -/
def digitsValue (base : Nat) (cs : List Char) : Option Nat :=
  if cs = [] then none
  else cs.foldl (fun acc c =>
    match acc, digitOf base c with
    | some a, some d => some (a * base + d)
    | _, _ => none) (some 0)

/-- `StrUnsignedDecimalLiteral` without `Infinity`: digits, optional fraction, optional
exponent. -/
def parseUnsignedDecimal (cs : List Char) : Option ℚ :=
  let (mant, ex) := cs.span (fun c => !(c == 'e' || c == 'E'))
  let (ip, fp) := mant.span (fun c => !(c == '.'))
  let m : Option ℚ :=
    match fp with
    | [] => (digitsValue 10 ip).map (fun n => (n : ℚ))
    | _ :: fd =>
        if ip = [] ∧ fd = [] then none
        else
          match (if ip = [] then some 0 else digitsValue 10 ip),
                (if fd = [] then some 0 else digitsValue 10 fd) with
          | some i, some f => some ((i : ℚ) + (f : ℚ) / (10 : ℚ) ^ fd.length)
          | _, _ => none
  match ex with
  | [] => m
  | _ :: es =>
      let (negative, ed) : Bool × List Char :=
        match es with
        | '-' :: r => (true, r)
        | '+' :: r => (false, r)
        | r => (false, r)
      match m, digitsValue 10 ed with
      | some q, some e => some (if negative then q / (10 : ℚ) ^ e else q * (10 : ℚ) ^ e)
      | _, _ => none

/-- Abstract operation StringToNumber: what `Number(s)` yields for a string. -/
def stringToNumber (s : String) : JSNum :=
  match trimChars s.data with
  | [] => .fin 0
  | '0' :: 'x' :: r => match digitsValue 16 r with | some n => .fin n | none => .nan
  | '0' :: 'X' :: r => match digitsValue 16 r with | some n => .fin n | none => .nan
  | '0' :: 'o' :: r => match digitsValue 8 r with | some n => .fin n | none => .nan
  | '0' :: 'O' :: r => match digitsValue 8 r with | some n => .fin n | none => .nan
  | '0' :: 'b' :: r => match digitsValue 2 r with | some n => .fin n | none => .nan
  | '0' :: 'B' :: r => match digitsValue 2 r with | some n => .fin n | none => .nan
  | cs =>
      let (negative, r) : Bool × List Char :=
        match cs with
        | '-' :: r => (true, r)
        | '+' :: r => (false, r)
        | r => (false, r)
      if r = "Infinity".data then (if negative then .negInf else .posInf)
      else match parseUnsignedDecimal r with
        | some q => .fin (if negative then -q else q)
        | none => .nan

/-- What the JavaScript engine supplies and this development does not compute: Unicode
lower-casing and the text of a number, with the facts about lower-casing used below. -/
structure Host where
  /-- `String.prototype.toLowerCase`. -/
  toLowerCase : String → String
  /-- `Number.prototype.toString` in base ten. -/
  numberToString : JSNum → String
  /-- Lower-casing a lower-cased string changes nothing. -/
  lower_idem : ∀ s, toLowerCase (toLowerCase s) = toLowerCase s
  /-- Lower-casing creates no white space at the ends of a string. -/
  lower_trim : ∀ s, trim s = s → trim (toLowerCase s) = toLowerCase s
  /-- The literal `featured` is in lower case. -/
  lower_featured : toLowerCase "featured" = "featured"
  /-- The literal `classic` is in lower case. -/
  lower_classic : toLowerCase "classic" = "classic"

mutual
/-- The conversion `String(v)`. -/
def toStr (H : Host) : JSValue → String
  | .undefined => "undefined"
  | .null => "null"
  | .bool b => if b then "true" else "false"
  | .num n => H.numberToString n
  | .str s => s
  | .arr xs => joinStr H xs
  | .obj _ => "[object Object]"
termination_by structural v => v
/-- `Array.prototype.join` with a comma: `null` and `undefined` elements render empty. -/
def joinStr (H : Host) : List JSValue → String
  | [] => ""
  | x :: r =>
      (match x with
        | .undefined => ""
        | .null => ""
        | v => toStr H v)
      ++ (match r with
        | [] => ""
        | _ => ",")
      ++ joinStr H r
termination_by structural xs => xs
end

/-- The conversion `Number(v)`. -/
def toNumber (H : Host) : JSValue → JSNum
  | .undefined => .nan
  | .null => .fin 0
  | .bool b => if b then .fin 1 else .fin 0
  | .num n => n
  | .str s => stringToNumber s
  | .arr xs => stringToNumber (toStr H (.arr xs))
  | .obj _ => .nan

/-! ## Persistence -/

mutual
/-- The value `JSON.parse(JSON.stringify(v))` for a value `v` that is not `undefined`:
non-finite numbers and `undefined` array elements become `null`, `undefined` fields vanish. -/
def jsonRoundTrip : JSValue → JSValue
  | .undefined => .null
  | .null => .null
  | .bool b => .bool b
  | .num (.fin q) => .num (.fin q)
  | .num _ => .null
  | .str s => .str s
  | .arr xs => .arr (roundTripElems xs)
  | .obj fs => .obj (roundTripFields fs)
termination_by structural v => v
/-- Round trip of array elements. -/
def roundTripElems : List JSValue → List JSValue
  | [] => []
  | x :: r => jsonRoundTrip x :: roundTripElems r
termination_by structural xs => xs
/-- Round trip of object fields. -/
def roundTripFields : List (String × JSValue) → List (String × JSValue)
  | [] => []
  | (_, .undefined) :: r => roundTripFields r
  | (k, v) :: r => (k, jsonRoundTrip v) :: roundTripFields r
termination_by structural fs => fs
end

mutual
/-- Values JSON text can denote: no `undefined`, no `NaN`, no infinity, at any depth. -/
def isJSON : JSValue → Bool
  | .undefined => false
  | .null => true
  | .bool _ => true
  | .num n => n.isFinite
  | .str _ => true
  | .arr xs => allJSON xs
  | .obj fs => allFieldsJSON fs
termination_by structural v => v
/-- Every element is a JSON value. -/
def allJSON : List JSValue → Bool
  | [] => true
  | x :: r => isJSON x && allJSON r
termination_by structural xs => xs
/-- Every field value is a JSON value. -/
def allFieldsJSON : List (String × JSValue) → Bool
  | [] => true
  | (_, v) :: r => isJSON v && allFieldsJSON r
termination_by structural fs => fs
end

/-- A `localStorage` entry as `JSON.parse` sees it. -/
inductive Entry
  /-- No item under the key: `getItem` answers `null`. -/
  | absent
  /-- An item `JSON.parse` rejects. -/
  | malformed
  /-- An item `JSON.parse` accepts, with the value it denotes. -/
  | json (v : JSValue)

/-- The four `localStorage` items of `KEYS`. -/
structure Store where
  /-- Item `tr_products_v1`. -/
  products : Entry
  /-- Item `tr_settings_v1`. -/
  settings : Entry
  /-- Item `tr_cart_v1`. -/
  cart : Entry
  /-- Item `tr_admin_pass_v1`, a plain string. -/
  adminPass : Option String

/-- The built-in data another script puts on `window`: an object literal and an array of
object literals (an unset global reads as the empty one through `|| {}` and `|| []`). -/
structure Window where
  /-- `window.TR_DEFAULT_SETTINGS`. -/
  defaultSettings : List (String × JSValue)
  /-- `window.TR_DEFAULT_PRODUCTS`. -/
  defaultProducts : List (List (String × JSValue))

/-- `safeParse(lsGet(key), fallback)`: a missing item reads `null`, which parses to `null`. -/
def safeParse (e : Entry) (fallback : JSValue) : JSValue :=
  match e with
  | .absent => .null
  | .malformed => fallback
  | .json v => v

/-- The entry `lsSet(key, JSON.stringify(v))` leaves behind. -/
def stringified (v : JSValue) : Entry :=
  match v with
  | .undefined => .malformed
  | w => .json (jsonRoundTrip w)

/-- The loop `for (var k in src) { out[k] = src[k]; }`. -/
def copyInto (out : List (String × JSValue)) (src : JSValue) : List (String × JSValue) :=
  (ownKeys src).foldl (fun o k => setField o k (get src k)) out

/-! ## `store.js` -/

/-- `loadSettings()`. -/
def loadSettings (W : Window) (s : Store) : JSValue :=
  let saved := safeParse s.settings .null
  if saved.truthy && saved.typeofObject then
    .obj (copyInto (copyInto [] (.obj W.defaultSettings)) saved)
  else
    .obj (copyInto [] (.obj W.defaultSettings))

/-- `saveSettings(settings)`. -/
def saveSettings (s : Store) (settings : JSValue) : Store :=
  { s with settings := stringified settings }

/-- `canonicalCat(c)`. -/
def canonicalCat (H : Host) (c : JSValue) : String :=
  let v := H.toLowerCase (trim (toStr H (jsOr c (.str ""))))
  if v = "feature" then "featured"
  else if v = "features" then "featured"
  else v

/-- `Array.from(new Set(xs))`: first occurrences, in order. -/
def dedupe (xs : List String) : List String :=
  xs.foldl (fun seen x => if x ∈ seen then seen else seen ++ [x]) []

/-- `normalizeCategories(product)`: the pair `{ primary, cats }`. -/
def normalizeCategories (H : Host) (product : JSValue) : String × List String :=
  let c := canonicalCat H (jsOr (jsAnd product (get product "category")) (.str "classic"))
  let primary := if c ≠ "" then c else "classic"
  let raw : List JSValue :=
    match (if product.truthy then get product "categories" else .undefined) with
    | .arr xs => xs
    | _ => [.str primary]
  let cats := (raw.map (canonicalCat H)).filter (fun x => decide (x ≠ ""))
  let cats := if primary ≠ "" ∧ ¬ primary ∈ cats then primary :: cats else cats
  (primary, dedupe cats)

/-- The expression `String((p && p.k) || '')`. -/
def stringField (H : Host) (p : JSValue) (k : String) : String :=
  toStr H (jsOr (jsAnd p (get p k)) (.str ""))

/-- The expression `Number((p && p.k) || 0)`. -/
def numberField (H : Host) (p : JSValue) (k : String) : JSNum :=
  toNumber H (jsOr (jsAnd p (get p k)) (.num (.fin 0)))

/-- `normalizeProduct(p)`. -/
def normalizeProduct (H : Host) (p : JSValue) : JSValue :=
  let pc := normalizeCategories H p
  .obj [
    ("id", .str (trim (stringField H p "id"))),
    ("name", .str (trim (stringField H p "name"))),
    ("brand", .str (trim (stringField H p "brand"))),
    ("category", .str pc.1),
    ("categories", .arr (pc.2.map .str)),
    ("price", .num (numberField H p "price")),
    ("compareAtPrice", .num (numberField H p "compareAtPrice")),
    ("badge", .str (stringField H p "badge")),
    ("image", .str (stringField H p "image")),
    ("images",
      if p.truthy && (get p "images").isArray && (get (get p "images") "length").truthy
      then get p "images"
      else if (jsAnd p (get p "image")).truthy then .arr [get p "image"] else .arr []),
    ("shortDescription", .str (stringField H p "shortDescription")),
    ("description", .str (stringField H p "description")),
    ("highlights",
      if p.truthy && (get p "highlights").isArray then get p "highlights" else .arr []),
    ("specs",
      if (jsAnd p (get p "specs")).truthy && (get p "specs").typeofObject
      then get p "specs" else .obj []),
    ("active", .bool (!(p.truthy && (get p "active").isFalse)))
  ]

/-- The filter `p => p.id && p.name` of `loadProducts`. -/
def hasIdAndName (p : JSValue) : Bool := (jsAnd (get p "id") (get p "name")).truthy

/-- The copy `cp` that `loadProducts` makes of a default record, `active` made explicit. -/
def defaultCopy (p : List (String × JSValue)) : JSValue :=
  let cp := copyInto [] (.obj p)
  if (JSValue.obj p).truthy && (getField p "active").isFalse
  then .obj (setField cp "active" (.bool false))
  else .obj (setField cp "active" (.bool true))

/-- `loadProducts()`: the elements of the returned array. -/
def loadProducts (H : Host) (W : Window) (s : Store) : List JSValue :=
  match safeParse s.products .null with
  | .arr (x :: xs) => ((x :: xs).map (normalizeProduct H)).filter hasIdAndName
  | _ => W.defaultProducts.map (fun p => normalizeProduct H (defaultCopy p))

/-- `saveProducts(products)`. -/
def saveProducts (s : Store) (products : JSValue) : Store :=
  { s with products := stringified products }

/-- `loadCart()`. -/
def loadCart (s : Store) : JSValue :=
  let c := safeParse s.cart (.obj [])
  if c.truthy && c.typeofObject then c else .obj []

/-- `saveCart(cart)`. -/
def saveCart (s : Store) (cart : JSValue) : Store :=
  { s with cart := stringified cart }

/-- Assignment `cart[k] = v`.  Only plain objects are modelled: a persisted cart that parses
to an array is outside the model and is left as it is. -/
def setProp : JSValue → String → JSValue → JSValue
  | .obj fs, k, v => .obj (setField fs k v)
  | o, _, _ => o

/-- Statement `delete cart[k]`, on plain objects. -/
def deleteProp : JSValue → String → JSValue
  | .obj fs, k => .obj (deleteField fs k)
  | o, _ => o

/-- The expression `Number(v) || d`. -/
def numberOr (H : Host) (v : JSValue) (d : JSNum) : JSNum :=
  if (toNumber H v).truthy then toNumber H v else d

/-- `addToCart(id, qty = 1)`: the returned cart and the store afterwards.  An omitted
argument is `undefined`. -/
def addToCart (H : Host) (s : Store) (id : String) (qty : JSValue) : JSValue × Store :=
  let qty := match qty with
    | .undefined => .num (.fin 1)
    | q => q
  let cart := loadCart s
  let cart := setProp cart id (.num ((numberOr H (get cart id) (.fin 0)).add (numberOr H qty (.fin 1))))
  let cart := if (toNumber H (get cart id)).le (.fin 0) then deleteProp cart id else cart
  (cart, saveCart s cart)

/-- Replacement of every maximal run of characters satisfying `p` by one hyphen, as
`replace(/\s+/g,'-')` and `replace(/\-+/g,'-')` do. -/
def replaceRuns (p : Char → Bool) : List Char → List Char
  | [] => []
  | c :: r =>
      if p c then
        (match r with
          | [] => ['-']
          | d :: _ => if p d then replaceRuns p r else '-' :: replaceRuns p r)
      else c :: replaceRuns p r

/-- The characters `replace(/[^a-z0-9\-]/g,'')` keeps. -/
def isIdChar (c : Char) : Bool :=
  let n := c.toNat
  decide ((97 ≤ n ∧ n ≤ 122) ∨ (48 ≤ n ∧ n ≤ 57) ∨ n = 45)

/-- `normalizeId(v)` for a string `v`. -/
def normalizeId (H : Host) (v : String) : String :=
  let lowered := H.toLowerCase (trim (toStr H (jsOr (.str v) (.str ""))))
  let hyphenated := replaceRuns isWhiteSpace lowered.data
  let kept := hyphenated.filter isIdChar
  ⟨replaceRuns (fun c => c == '-') kept⟩

/-- `String.prototype.split` with a one-character separator. -/
def splitOn (sep : Char) : List Char → List (List Char)
  | [] => [[]]
  | c :: r =>
      if c = sep then [] :: splitOn sep r
      else match splitOn sep r with
        | h :: t => (c :: h) :: t
        | [] => [[c]]

/-- `String.prototype.split(/\r?\n/)`. -/
def splitLines : List Char → List (List Char)
  | [] => [[]]
  | '\r' :: '\n' :: r => [] :: splitLines r
  | '\n' :: r => [] :: splitLines r
  | c :: r =>
      match splitLines r with
      | h :: t => (c :: h) :: t
      | [] => [[c]]

/-- `parseSpecs(lines)` for a string `lines`: the fields of the object built. -/
def parseSpecs (lines : String) : List (String × JSValue) :=
  let rows := ((splitLines lines.data).map trimChars).filter (fun l => decide (l ≠ []))
  rows.foldl (fun out line =>
    match line.span (fun c => !(c == ':')) with
    | (_, []) => out
    | (before, _ :: after) =>
        let k : String := ⟨trimChars before⟩
        let v : String := ⟨trimChars after⟩
        if k ≠ "" then setField out k (.str v) else out) []

/-- The product editor as `saveFromModal` reads it: the values of its inputs, the state of
the `active` checkbox and the `dataset` of the save button. -/
structure Form where
  /-- Value of `#pId`. -/
  pId : String
  /-- Value of `#pName`. -/
  pName : String
  /-- Value of `#pBrand`. -/
  pBrand : String
  /-- Value of `#pCategory`. -/
  pCategory : String
  /-- Value of `#pPrice`. -/
  pPrice : String
  /-- Value of `#pCompare`. -/
  pCompare : String
  /-- Value of `#pBadge`. -/
  pBadge : String
  /-- Value of `#pImage`. -/
  pImage : String
  /-- Value of `#pShort`. -/
  pShort : String
  /-- Value of `#pDesc`. -/
  pDesc : String
  /-- Value of `#pHighlights`. -/
  pHighlights : String
  /-- Value of `#pSpecs`. -/
  pSpecs : String
  /-- Whether `#pActive` is checked. -/
  pActive : Bool
  /-- `dataset.mode` of `#saveProductBtn`. -/
  mode : String
  /-- `dataset.originalId` of `#saveProductBtn`. -/
  originalId : String

/-- The id `saveFromModal` computes: `normalizeId` of the trimmed id input, or of the trimmed
name when that is empty. -/
def formId (H : Host) (f : Form) : String :=
  normalizeId H (if trim f.pId ≠ "" then trim f.pId else trim f.pName)

/-- The object literal `product` that `saveFromModal` builds from the form. -/
def formProduct (H : Host) (f : Form) : List (String × JSValue) :=
  let priceOf : String → JSNum := fun v =>
    toNumber H (jsOr (.str v) (.num (.fin 0)))
  [ ("id", .str (formId H f)),
    ("name", .str (trim f.pName)),
    ("brand", .str (trim f.pBrand)),
    ("category", .str f.pCategory),
    ("price", .num (priceOf f.pPrice)),
    ("compareAtPrice", .num (priceOf f.pCompare)),
    ("badge", .str (trim f.pBadge)),
    ("image", .str (trim f.pImage)),
    ("images", .arr (([JSValue.str (trim f.pImage)]).filter JSValue.truthy)),
    ("shortDescription", .str (trim f.pShort)),
    ("description", .str (trim f.pDesc)),
    ("highlights", .arr ((((splitOn ',' f.pHighlights.data).map
        (fun l => JSValue.str ⟨trimChars l⟩))).filter JSValue.truthy)),
    ("specs", .obj (parseSpecs f.pSpecs)),
    ("active", .bool f.pActive) ]

/-- The test `p.id === s` for a string `s`. -/
def idIs (p : JSValue) (s : String) : Bool :=
  match get p "id" with
  | .str t => decide (t = s)
  | _ => false

/-- `saveFromModal()`: the store afterwards and the text of the toast shown. -/
def saveFromModal (H : Host) (W : Window) (s : Store) (f : Form) : Store × String :=
  let product := formProduct H f
  if !(getField product "id").truthy || !(getField product "name").truthy then
    (s, "ID and Name are required")
  else
    let products := loadProducts H W s
    if f.mode = "edit" then
      match products.findIdx? (fun p => idIs p f.originalId) with
      | none => (s, "Product not found")
      | some idx =>
          if (products.find? (fun p => idIs p (formId H f) && !idIs p f.originalId)).isSome then
            (s, "This ID already exists")
          else
            let merged := JSValue.obj
              (copyInto (copyInto [] (products.getD idx .undefined)) (.obj product))
            (saveProducts s (.arr (products.set idx merged)), "Saved")
    else
      if products.any (fun p => idIs p (formId H f)) then
        (s, "This ID already exists")
      else
        (saveProducts s (.arr (JSValue.obj product :: products)), "Saved")

/-- The object `data` that `exportProducts` serialises; `now` is the ISO timestamp. -/
def exportData (H : Host) (W : Window) (s : Store) (now : String) : JSValue :=
  .obj [
    ("settings", loadSettings W s),
    ("products", .arr (loadProducts H W s)),
    ("exportedAt", .str now),
    ("app", .str "TimeRush") ]

/-- What `JSON.parse` makes of the file `exportProducts` downloads. -/
def exportedFile (H : Host) (W : Window) (s : Store) (now : String) : Option JSValue :=
  some (jsonRoundTrip (exportData H W s now))

/-- `importProducts(file)`: `parsed` is what `JSON.parse` makes of the file text, `none`
when it throws. -/
def importProducts (s : Store) (parsed : Option JSValue) : Store :=
  match parsed with
  | none => s
  | some doc =>
      let s1 :=
        if doc.truthy && (get doc "products").isArray then saveProducts s (get doc "products")
        else s
      if (jsAnd doc (get doc "settings")).truthy && (get doc "settings").typeofObject then
        saveSettings s1 (get doc "settings")
      else s1

/-- The store after `exportProducts()` at time `now` followed by `importProducts` on the file
it downloaded. -/
def exportThenImport (H : Host) (W : Window) (s : Store) (now : String) : Store :=
  importProducts s (exportedFile H W s now)

/-! ## A concrete host -/

/-- Lower-casing of the letters `A` to `Z`. -/
def asciiLower (c : Char) : Char :=
  if 65 ≤ c.toNat ∧ c.toNat ≤ 90 then Char.ofNat (c.toNat + 32) else c

/-- Decimal digits of the fractional part `r / d` (with `r < d`), at most `fuel` of them. -/
def fractionDigits (d : Nat) : Nat → Nat → List Char
  | 0, _ => []
  | fuel + 1, r =>
      if r = 0 then []
      else Char.ofNat (48 + (r * 10) / d) :: fractionDigits d fuel ((r * 10) % d)

/-- Text of a number: integers in decimal, other values as a decimal expansion. -/
def decimalText : JSNum → String
  | .nan => "NaN"
  | .posInf => "Infinity"
  | .negInf => "-Infinity"
  | .fin q =>
      let whole := q.num.natAbs / q.den
      let frac := fractionDigits q.den 20 (q.num.natAbs % q.den)
      (if q < 0 then "-" else "") ++ toString whole
        ++ (if frac = [] then "" else "." ++ String.mk frac)

/-- A host for evaluating the model: it lower-cases the letters `A` to `Z` and renders
integers in decimal, as ECMAScript does on ASCII text and on integers below `10^21`. -/
def asciiHost : Host where
  toLowerCase s := ⟨s.data.map asciiLower⟩
  numberToString := decimalText
  lower_idem := by
    intro s
    have h : ∀ c, asciiLower (asciiLower c) = asciiLower c := by
      intro c
      unfold asciiLower
      by_cases hc : 65 ≤ c.toNat ∧ c.toNat ≤ 90
      · have e : c = Char.ofNat c.toNat := (Char.ofNat_toNat c).symm
        obtain ⟨h1, h2⟩ := hc
        generalize c.toNat = n at e h1 h2
        subst e
        interval_cases n <;> decide
      · simp [hc]
    have hf : asciiLower ∘ asciiLower = asciiLower := funext h
    simp [hf]
  lower_trim := by
    intro s hs
    have h : ∀ c, isWhiteSpace (asciiLower c) = isWhiteSpace c := by
      intro c
      unfold asciiLower
      by_cases hc : 65 ≤ c.toNat ∧ c.toNat ≤ 90
      · have e : c = Char.ofNat c.toNat := (Char.ofNat_toNat c).symm
        obtain ⟨h1, h2⟩ := hc
        generalize c.toNat = n at e h1 h2
        subst e
        interval_cases n <;> decide
      · simp [hc]
    have hf : isWhiteSpace ∘ asciiLower = isWhiteSpace := funext h
    have ht : ∀ l : List Char, trimChars (l.map asciiLower) = (trimChars l).map asciiLower := by
      intro l
      simp only [trimChars, List.rdropWhile, List.dropWhile_map, hf, ← List.map_reverse]
    have hd : trimChars s.data = s.data := congrArg String.data hs
    show (⟨trimChars (s.data.map asciiLower)⟩ : String) = ⟨s.data.map asciiLower⟩
    rw [ht, hd]
  lower_featured := by decide
  lower_classic := by decide

/-! ## Reference definitions -/

/-- A store with no item at all. -/
def emptyStore : Store :=
  { products := .absent, settings := .absent, cart := .absent, adminPass := none }

/-- A window whose default catalog holds one record without a name. -/
def namelessWindow : Window :=
  { defaultSettings := [], defaultProducts := [[("id", .str "w1")]] }

/-- A raw record with a blank-padded id, an aliased category and a numeric price. -/
def sampleRecord : JSValue :=
  .obj [("id", .str " w1 "), ("name", .str "Diver"), ("category", .str "Feature"),
    ("price", .num (.fin 120))]

/-- A store whose persisted products are the one record `sampleRecord`. -/
def sampleProductStore : Store :=
  { products := .json (.arr [sampleRecord]), settings := .absent, cart := .absent,
    adminPass := none }

/-- A window with one valid default product and a default store name. -/
def sampleWindow : Window :=
  { defaultSettings := [("storeName", .str "Time Rush"), ("tagline", .str "On time")],
    defaultProducts := [[("id", .str "w1"), ("name", .str "Diver")]] }

/-- A store whose one persisted product has the text `abc` for a price. -/
def textPriceStore : Store :=
  { products := .json (.arr [.obj [("id", .str "a"), ("name", .str "A"),
      ("price", .str "abc")]]),
    settings := .absent, cart := .absent, adminPass := none }

/-- A store whose one persisted product record is empty. -/
def blankRecordStore : Store :=
  { products := .json (.arr [.obj []]), settings := .absent, cart := .absent,
    adminPass := none }

/-- The editor in add mode, filled with an id that `sampleProductStore` already holds. -/
def duplicateForm : Form :=
  { pId := " W1 ", pName := "Another diver", pBrand := "", pCategory := "classic",
    pPrice := "10", pCompare := "", pBadge := "", pImage := "", pShort := "", pDesc := "",
    pHighlights := "", pSpecs := "", pActive := true, mode := "add", originalId := "" }

/-! ## Lemmas on strings -/

theorem trimChars_idem (l : List Char) : trimChars (trimChars l) = trimChars l := by
  unfold trimChars
  have key : List.dropWhile isWhiteSpace ((l.dropWhile isWhiteSpace).rdropWhile isWhiteSpace)
      = (l.dropWhile isWhiteSpace).rdropWhile isWhiteSpace := by
    cases hm : l.dropWhile isWhiteSpace with
    | nil => simp
    | cons a t =>
      have ha : ¬ isWhiteSpace a = true := by
        have := List.dropWhile_idempotent (p := isWhiteSpace) (l := l)
        rw [hm] at this
        intro hw
        simp [List.dropWhile, hw] at this
        have h2 := (List.dropWhile_sublist isWhiteSpace (l := t)).length_le
        rw [this] at h2
        simp at h2
      have hp := List.rdropWhile_prefix isWhiteSpace (a :: t)
      cases hr : List.rdropWhile isWhiteSpace (a :: t) with
      | nil =>
        rw [List.rdropWhile_eq_nil_iff] at hr
        exact absurd (hr a (List.mem_cons_self _ _)) ha
      | cons b u =>
        rw [hr] at hp
        obtain ⟨w, hw⟩ := hp
        have hb : b = a := by
          simp at hw
          exact hw.1
        subst hb
        simp [List.dropWhile, ha]
  rw [key, List.rdropWhile_idempotent]

theorem trim_trim (s : String) : trim (trim s) = trim s := by
  simp [trim, trimChars_idem]


/-! ## Categories -/

theorem dedupe_fold_spec (xs seen : List String) (hs : seen.Nodup) :
    (xs.foldl (fun seen x => if x ∈ seen then seen else seen ++ [x]) seen).Nodup ∧
    ∀ y, y ∈ xs.foldl (fun seen x => if x ∈ seen then seen else seen ++ [x]) seen ↔
      y ∈ seen ∨ y ∈ xs := by
  induction xs generalizing seen with
  | nil => simp [hs]
  | cons x r ih =>
    simp only [List.foldl_cons]
    by_cases hx : x ∈ seen
    · simp only [hx, if_true]
      refine ⟨(ih seen hs).1, fun y => ?_⟩
      rw [(ih seen hs).2 y]
      constructor
      · rintro (h | h)
        · exact Or.inl h
        · exact Or.inr (List.mem_cons_of_mem _ h)
      · rintro (h | h)
        · exact Or.inl h
        · rcases List.mem_cons.1 h with h | h
          · exact Or.inl (h ▸ hx)
          · exact Or.inr h
    · simp only [hx, if_false]
      have hn : (seen ++ [x]).Nodup := by
        rw [List.nodup_append]
        refine ⟨hs, List.nodup_singleton x, ?_⟩
        intro a ha hb
        rw [List.mem_singleton] at hb
        exact hx (hb ▸ ha)
      refine ⟨(ih _ hn).1, fun y => ?_⟩
      rw [(ih _ hn).2 y]
      simp only [List.mem_append, List.mem_singleton, List.mem_cons]
      tauto

theorem dedupe_nodup (xs : List String) : (dedupe xs).Nodup :=
  (dedupe_fold_spec xs [] List.nodup_nil).1

theorem mem_dedupe (xs : List String) (y : String) : y ∈ dedupe xs ↔ y ∈ xs := by
  have := (dedupe_fold_spec xs [] List.nodup_nil).2 y
  simpa [dedupe] using this

theorem dedupe_fold_of_nodup (xs seen : List String) (h : (seen ++ xs).Nodup) :
    xs.foldl (fun seen x => if x ∈ seen then seen else seen ++ [x]) seen = seen ++ xs := by
  induction xs generalizing seen with
  | nil => simp
  | cons x r ih =>
    have hx : ¬ x ∈ seen := by
      intro hx
      rw [List.nodup_append] at h
      exact h.2.2 hx (List.mem_cons_self _ _)
    simp only [List.foldl_cons, hx, if_false]
    have h2 : (seen ++ [x] ++ r).Nodup := by simpa using h
    rw [ih _ h2]
    simp

theorem dedupe_of_nodup (xs : List String) (h : xs.Nodup) : dedupe xs = xs := by
  have := dedupe_fold_of_nodup xs [] (by simpa using h)
  simpa [dedupe] using this

theorem normalizeCategories_primary_ne (H : Host) (P : JSValue) :
    (normalizeCategories H P).1 ≠ "" := by
  simp only [normalizeCategories]
  split
  · assumption
  · decide

theorem normalizeCategories_snd (H : Host) (P : JSValue) :
    ∃ filtered : List String,
      (normalizeCategories H P).2 =
        dedupe (if (normalizeCategories H P).1 ≠ "" ∧ ¬ (normalizeCategories H P).1 ∈ filtered
          then (normalizeCategories H P).1 :: filtered else filtered) ∧
      ∀ x ∈ filtered, x ≠ "" ∧ ∃ v, x = canonicalCat H v := by
  refine ⟨_, rfl, ?_⟩
  intro x hx
  rw [List.mem_filter, List.mem_map] at hx
  obtain ⟨⟨v, _, hv⟩, hne⟩ := hx
  exact ⟨by simpa using hne, v, hv.symm⟩

theorem normalizeCategories_mem (H : Host) (P : JSValue) :
    (normalizeCategories H P).1 ∈ (normalizeCategories H P).2 := by
  have hne := normalizeCategories_primary_ne H P
  obtain ⟨f, hf, _⟩ := normalizeCategories_snd H P
  rw [hf, mem_dedupe]
  by_cases hc : (normalizeCategories H P).1 ∈ f
  · simp [hc]
  · simp [hc, hne]

theorem normalizeCategories_nodup (H : Host) (P : JSValue) :
    (normalizeCategories H P).2.Nodup := by
  simp only [normalizeCategories]
  exact dedupe_nodup _

theorem str_injective : Function.Injective JSValue.str := by
  intro a b h
  cases h
  rfl

/-- C2. For every raw product record, the `category` of the normalized product is a string
that occurs in its `categories` array, and that array has no duplicate entry. -/
theorem normalizeProduct_category_invariant (H : Host) (P : JSValue) :
    ∃ primary : String, ∃ cats : List String,
      get (normalizeProduct H P) "category" = .str primary ∧
      get (normalizeProduct H P) "categories" = .arr (cats.map .str) ∧
      primary ∈ cats ∧ cats.Nodup ∧
      JSValue.str primary ∈ cats.map .str ∧ (cats.map JSValue.str).Nodup :=
  ⟨(normalizeCategories H P).1, (normalizeCategories H P).2, rfl, rfl,
    normalizeCategories_mem H P, normalizeCategories_nodup H P,
    List.mem_map_of_mem _ (normalizeCategories_mem H P),
    (normalizeCategories_nodup H P).map str_injective⟩


/-! ## Idempotence -/

theorem jsAnd_of_truthy {a : JSValue} (b : JSValue) (h : a.truthy = true) : jsAnd a b = b := by
  simp [jsAnd, h]

theorem jsAnd_of_falsy {a : JSValue} (b : JSValue) (h : a.truthy = false) : jsAnd a b = a := by
  simp [jsAnd, h]

theorem jsOr_of_truthy {a : JSValue} (b : JSValue) (h : a.truthy = true) : jsOr a b = a := by
  simp [jsOr, h]

theorem jsOr_of_falsy {a : JSValue} (b : JSValue) (h : a.truthy = false) : jsOr a b = b := by
  simp [jsOr, h]

theorem truthy_str (s : String) : (JSValue.str s).truthy = decide (s ≠ "") := rfl

theorem jsOr_str (a : String) : jsOr (.str a) (.str "") = .str a := by
  unfold jsOr
  by_cases h : a = ""
  · simp [JSValue.truthy, h]
  · simp [JSValue.truthy, h]

theorem canonicalCat_fixed (H : Host) (v : JSValue) :
    canonicalCat H (.str (canonicalCat H v)) = canonicalCat H v := by
  have hf : canonicalCat H (.str "featured") = "featured" := by
    have ht : trim "featured" = "featured" := by decide
    simp only [canonicalCat, jsOr_str, toStr, ht, H.lower_featured]
    decide
  unfold canonicalCat
  simp only []
  split
  · exact hf
  · split
    · exact hf
    · rename_i h1 h2
      simp only [jsOr_str, toStr]
      rw [H.lower_trim _ (trim_trim _), H.lower_idem]
      simp [h1, h2]

theorem canonicalCat_classic (H : Host) : canonicalCat H (.str "classic") = "classic" := by
  have ht : trim "classic" = "classic" := by decide
  simp only [canonicalCat, jsOr_str, toStr, ht, H.lower_classic]
  decide

theorem normalizeCategories_primary_fixed (H : Host) (P : JSValue) :
    canonicalCat H (.str (normalizeCategories H P).1) = (normalizeCategories H P).1 := by
  simp only [normalizeCategories]
  split
  · rename_i h
    exact canonicalCat_fixed H _
  · exact canonicalCat_classic H

theorem normalizeCategories_cats_fixed (H : Host) (P : JSValue) :
    ∀ x ∈ (normalizeCategories H P).2, x ≠ "" ∧ canonicalCat H (.str x) = x := by
  intro x hx
  obtain ⟨f, hf, hall⟩ := normalizeCategories_snd H P
  rw [hf, mem_dedupe] at hx
  have hfil : ∀ y ∈ f, y ≠ "" ∧ canonicalCat H (.str y) = y := by
    intro y hy
    obtain ⟨h1, v, rfl⟩ := hall y hy
    exact ⟨h1, canonicalCat_fixed H v⟩
  split at hx
  · rcases List.mem_cons.1 hx with h | h
    · subst h
      exact ⟨normalizeCategories_primary_ne H P, normalizeCategories_primary_fixed H P⟩
    · exact hfil x h
  · exact hfil x hx

theorem map_filter_fixed (H : Host) (cats : List String)
    (h : ∀ x ∈ cats, x ≠ "" ∧ canonicalCat H (.str x) = x) :
    ((cats.map JSValue.str).map (canonicalCat H)).filter (fun x => decide (x ≠ "")) = cats := by
  induction cats with
  | nil => rfl
  | cons a r ih =>
    have ha := h a (List.mem_cons_self _ _)
    have hr := ih (fun x hx => h x (List.mem_cons_of_mem _ hx))
    simp only [List.map_cons, List.filter_cons, ha.2, ha.1, ne_eq, not_false_eq_true,
      decide_True, if_true, hr]

theorem normalizeProduct_truthy (H : Host) (P : JSValue) :
    (normalizeProduct H P).truthy = true := rfl

theorem normalizeCategories_idem (H : Host) (P : JSValue) :
    normalizeCategories H (normalizeProduct H P) = normalizeCategories H P := by
  have hne := normalizeCategories_primary_ne H P
  have hfix := normalizeCategories_primary_fixed H P
  have hcats := normalizeCategories_cats_fixed H P
  have hmem := normalizeCategories_mem H P
  have hnd := normalizeCategories_nodup H P
  generalize hn : normalizeCategories H P = nc at *
  obtain ⟨primary, cats⟩ := nc
  simp only at hne hfix hcats hmem hnd
  have hcat : get (normalizeProduct H P) "category" = .str primary := by
    show JSValue.str (normalizeCategories H P).1 = _
    rw [hn]
  have hcs : get (normalizeProduct H P) "categories" = .arr (cats.map .str) := by
    show JSValue.arr ((normalizeCategories H P).2.map .str) = _
    rw [hn]
  have hor : jsOr (jsAnd (normalizeProduct H P) (.str primary)) (.str "classic") = .str primary := by
    rw [jsAnd_of_truthy _ (normalizeProduct_truthy H P), jsOr_of_truthy]
    simp [truthy_str, hne]
  unfold normalizeCategories
  simp only [hcat, hcs, hor, hfix, normalizeProduct_truthy, if_true, hne, ne_eq,
    not_false_eq_true, map_filter_fixed H cats hcats, hmem, not_true_eq_false, and_false,
    if_false, dedupe_of_nodup cats hnd]


theorem stringField_normalized (H : Host) (P : JSValue) (k : String) (a : String)
    (h : get (normalizeProduct H P) k = .str a) :
    stringField H (normalizeProduct H P) k = a := by
  unfold stringField
  rw [h, jsAnd_of_truthy _ (normalizeProduct_truthy H P), jsOr_str]
  rfl

theorem numberField_normalized (H : Host) (P : JSValue) (k : String) (x : JSNum)
    (h : get (normalizeProduct H P) k = .num x) (hx : x ≠ .nan) :
    numberField H (normalizeProduct H P) k = x := by
  unfold numberField
  rw [h, jsAnd_of_truthy _ (normalizeProduct_truthy H P)]
  cases x with
  | nan => exact absurd rfl hx
  | posInf => rfl
  | negInf => rfl
  | fin q =>
    by_cases hq : q = 0
    · subst hq
      rfl
    · rw [jsOr_of_truthy]
      · rfl
      · simp [JSValue.truthy, JSNum.truthy, hq]

theorem truthy_length (xs : List JSValue) :
    (get (.arr xs) "length").truthy = !xs.isEmpty := by
  cases xs with
  | nil => simp [get, JSValue.truthy, JSNum.truthy]
  | cons a r =>
    have h : ((r.length + 1 : ℕ) : ℚ) ≠ 0 := Nat.cast_ne_zero.2 (Nat.succ_ne_zero _)
    simp only [get, if_true, JSValue.truthy, JSNum.truthy, List.length_cons]
    simpa using h

theorem images_normalized (H : Host) (P : JSValue) :
    (if ((normalizeProduct H P).truthy && (get (normalizeProduct H P) "images").isArray
          && (get (get (normalizeProduct H P) "images") "length").truthy) = true
      then get (normalizeProduct H P) "images"
      else if (jsAnd (normalizeProduct H P) (get (normalizeProduct H P) "image")).truthy = true
        then JSValue.arr [get (normalizeProduct H P) "image"] else JSValue.arr [])
    = get (normalizeProduct H P) "images" := by
  have hi : get (normalizeProduct H P) "images" =
      (if (P.truthy && (get P "images").isArray && (get (get P "images") "length").truthy) = true
        then get P "images"
        else if (jsAnd P (get P "image")).truthy = true then .arr [get P "image"] else .arr []) := rfl
  have him : get (normalizeProduct H P) "image" = .str (stringField H P "image") := rfl
  rw [jsAnd_of_truthy _ (normalizeProduct_truthy H P), normalizeProduct_truthy, him, hi]
  by_cases c1 : (P.truthy && (get P "images").isArray && (get (get P "images") "length").truthy) = true
  · rw [if_pos c1]
    have c1' := c1
    simp only [Bool.and_eq_true] at c1'
    simp [c1'.1.2, c1'.2]
  · rw [if_neg c1]
    by_cases c2 : (jsAnd P (get P "image")).truthy = true
    · rw [if_pos c2]
      simp [JSValue.isArray, truthy_length]
    · rw [if_neg c2]
      have hs : stringField H P "image" = "" := by
        unfold stringField
        rw [jsOr_of_falsy _ (by simpa using c2)]
        rfl
      simp [JSValue.isArray, truthy_length, hs, truthy_str]

theorem highlights_normalized (H : Host) (P : JSValue) :
    (if ((normalizeProduct H P).truthy && (get (normalizeProduct H P) "highlights").isArray) = true
      then get (normalizeProduct H P) "highlights" else JSValue.arr [])
    = get (normalizeProduct H P) "highlights" := by
  have hi : get (normalizeProduct H P) "highlights" =
      (if (P.truthy && (get P "highlights").isArray) = true
        then get P "highlights" else .arr []) := rfl
  rw [normalizeProduct_truthy, hi]
  by_cases c1 : (P.truthy && (get P "highlights").isArray) = true
  · rw [if_pos c1]
    have c1' := c1
    simp only [Bool.and_eq_true] at c1'
    simp [c1'.2]
  · rw [if_neg c1]
    simp [JSValue.isArray]

theorem specs_normalized (H : Host) (P : JSValue) :
    (if ((jsAnd (normalizeProduct H P) (get (normalizeProduct H P) "specs")).truthy
          && (get (normalizeProduct H P) "specs").typeofObject) = true
      then get (normalizeProduct H P) "specs" else JSValue.obj [])
    = get (normalizeProduct H P) "specs" := by
  have hi : get (normalizeProduct H P) "specs" =
      (if ((jsAnd P (get P "specs")).truthy && (get P "specs").typeofObject) = true
        then get P "specs" else .obj []) := rfl
  rw [jsAnd_of_truthy _ (normalizeProduct_truthy H P), hi]
  by_cases c1 : ((jsAnd P (get P "specs")).truthy && (get P "specs").typeofObject) = true
  · rw [if_pos c1]
    have c1' := c1
    simp only [Bool.and_eq_true] at c1'
    have ht : (get P "specs").truthy = true := by
      have h1 := c1'.1
      unfold jsAnd at h1
      split at h1
      · exact h1
      · rename_i hP
        exact absurd h1 hP
    simp [ht, c1'.2]
  · rw [if_neg c1]
    simp [JSValue.truthy, JSValue.typeofObject]

theorem active_normalized (H : Host) (P : JSValue) :
    JSValue.bool (!((normalizeProduct H P).truthy && (get (normalizeProduct H P) "active").isFalse))
    = get (normalizeProduct H P) "active" := by
  have hi : get (normalizeProduct H P) "active" =
      .bool (!(P.truthy && (get P "active").isFalse)) := rfl
  rw [normalizeProduct_truthy, hi]
  cases (!(P.truthy && (get P "active").isFalse)) <;> rfl

theorem normalizeProduct_eq (H : Host) (p : JSValue) :
    normalizeProduct H p = .obj [
      ("id", .str (trim (stringField H p "id"))),
      ("name", .str (trim (stringField H p "name"))),
      ("brand", .str (trim (stringField H p "brand"))),
      ("category", .str (normalizeCategories H p).1),
      ("categories", .arr ((normalizeCategories H p).2.map .str)),
      ("price", .num (numberField H p "price")),
      ("compareAtPrice", .num (numberField H p "compareAtPrice")),
      ("badge", .str (stringField H p "badge")),
      ("image", .str (stringField H p "image")),
      ("images",
        if (p.truthy && (get p "images").isArray && (get (get p "images") "length").truthy) = true
        then get p "images"
        else if (jsAnd p (get p "image")).truthy = true then .arr [get p "image"] else .arr []),
      ("shortDescription", .str (stringField H p "shortDescription")),
      ("description", .str (stringField H p "description")),
      ("highlights",
        if (p.truthy && (get p "highlights").isArray) = true then get p "highlights" else .arr []),
      ("specs",
        if ((jsAnd p (get p "specs")).truthy && (get p "specs").typeofObject) = true
        then get p "specs" else .obj []),
      ("active", .bool (!(p.truthy && (get p "active").isFalse)))
    ] := rfl

theorem normalizeProduct_idempotent_of_numbers (H : Host) (P : JSValue)
    (hp : numberField H P "price" ≠ .nan)
    (hc : numberField H P "compareAtPrice" ≠ .nan) :
    normalizeProduct H (normalizeProduct H P) = normalizeProduct H P := by
  rw [normalizeProduct_eq H (normalizeProduct H P)]
  rw [stringField_normalized H P "id" _ rfl, stringField_normalized H P "name" _ rfl,
    stringField_normalized H P "brand" _ rfl, stringField_normalized H P "badge" _ rfl,
    stringField_normalized H P "image" _ rfl,
    stringField_normalized H P "shortDescription" _ rfl,
    stringField_normalized H P "description" _ rfl,
    numberField_normalized H P "price" _ rfl hp,
    numberField_normalized H P "compareAtPrice" _ rfl hc,
    normalizeCategories_idem H P, images_normalized, highlights_normalized, specs_normalized,
    active_normalized, trim_trim, trim_trim, trim_trim]
  rfl


/-- C1 (as stated, refuted). A record whose price is the text `abc` normalizes to a product
with price `NaN`, and normalizing that product again gives price `0`. -/
theorem normalizeProduct_not_idempotent :
    normalizeProduct asciiHost (normalizeProduct asciiHost (.obj [("price", .str "abc")]))
      ≠ normalizeProduct asciiHost (.obj [("price", .str "abc")]) := by
  intro h
  have h2 : get (normalizeProduct asciiHost
      (normalizeProduct asciiHost (.obj [("price", .str "abc")]))) "price"
      = get (normalizeProduct asciiHost (.obj [("price", .str "abc")])) "price" := by rw [h]
  have h3 : get (normalizeProduct asciiHost
      (normalizeProduct asciiHost (.obj [("price", .str "abc")]))) "price"
      = .num (.fin 0) := rfl
  have h4 : get (normalizeProduct asciiHost (.obj [("price", .str "abc")])) "price"
      = .num .nan := rfl
  rw [h3, h4] at h2
  cases h2

/-- C1 (amended). For every raw product record whose normalized `price` and `compareAtPrice`
are not `NaN`, normalizing the normalized product returns it unchanged, field for field. -/
theorem normalizeProduct_idempotent (H : Host) (P : JSValue)
    (hp : get (normalizeProduct H P) "price" ≠ .num .nan)
    (hc : get (normalizeProduct H P) "compareAtPrice" ≠ .num .nan) :
    normalizeProduct H (normalizeProduct H P) = normalizeProduct H P :=
  normalizeProduct_idempotent_of_numbers H P
    (fun h => hp (by
      show JSValue.num (numberField H P "price") = _
      rw [h]))
    (fun h => hc (by
      show JSValue.num (numberField H P "compareAtPrice") = _
      rw [h]))

/-- Witness for C1 (amended) at `sampleRecord`. -/
theorem normalizeProduct_idempotent_witness :
    get (normalizeProduct asciiHost sampleRecord) "price" ≠ .num .nan ∧
    get (normalizeProduct asciiHost sampleRecord) "compareAtPrice" ≠ .num .nan ∧
    normalizeProduct asciiHost (normalizeProduct asciiHost sampleRecord)
      = normalizeProduct asciiHost sampleRecord := by
  have h1 : get (normalizeProduct asciiHost sampleRecord) "price" = .num (.fin 120) := by
    simp [normalizeProduct, sampleRecord, numberField, get, getField, List.lookup, jsAnd, jsOr,
      JSValue.truthy, JSNum.truthy, toNumber]
  have h2 : get (normalizeProduct asciiHost sampleRecord) "compareAtPrice" = .num (.fin 0) :=
    rfl
  have p1 : get (normalizeProduct asciiHost sampleRecord) "price" ≠ .num .nan := by
    rw [h1]
    simp
  have p2 : get (normalizeProduct asciiHost sampleRecord) "compareAtPrice" ≠ .num .nan := by
    rw [h2]
    simp
  exact ⟨p1, p2, normalizeProduct_idempotent asciiHost sampleRecord p1 p2⟩

/-! ## Lemmas on field lists -/

theorem getField_setField_self (fs : List (String × JSValue)) (k : String) (v : JSValue) :
    getField (setField fs k v) k = v := by
  induction fs with
  | nil => simp [setField, getField, List.lookup]
  | cons e r ih =>
    obtain ⟨k1, v1⟩ := e
    by_cases h : k1 = k
    · simp [setField, h, getField, List.lookup]
    · have h2 : (k == k1) = false := by simpa using fun e => h e.symm
      simp only [setField, h, if_false]
      simp only [getField, List.lookup, h2] at ih ⊢
      exact ih

theorem getField_setField_other (fs : List (String × JSValue)) (k k2 : String) (v : JSValue)
    (hk : k2 ≠ k) : getField (setField fs k v) k2 = getField fs k2 := by
  induction fs with
  | nil =>
    have h2 : (k2 == k) = false := by simpa using hk
    simp [setField, getField, List.lookup, h2]
  | cons e r ih =>
    obtain ⟨k1, v1⟩ := e
    by_cases h : k1 = k
    · subst h
      have h2 : (k2 == k1) = false := by simpa using hk
      simp [setField, getField, List.lookup, h2]
    · simp only [setField, h, if_false]
      simp only [getField, List.lookup] at ih ⊢
      cases hb : (k2 == k1) with
      | true => rfl
      | false => exact ih

theorem fieldKeys_setField (fs : List (String × JSValue)) (k k2 : String) (v : JSValue) :
    k2 ∈ fieldKeys (setField fs k v) ↔ k2 ∈ fieldKeys fs ∨ k2 = k := by
  induction fs with
  | nil => simp [setField, fieldKeys]
  | cons a r ih =>
    obtain ⟨k1, v1⟩ := a
    by_cases h : k1 = k
    · subst h
      simp only [setField, if_true, fieldKeys, List.map_cons, List.mem_cons]
      tauto
    · simp only [setField, h, if_false, fieldKeys, List.map_cons, List.mem_cons] at ih ⊢
      rw [ih]
      tauto

theorem getField_eq_undefined_of_not_mem (fs : List (String × JSValue)) (k : String)
    (h : ¬ k ∈ fieldKeys fs) : getField fs k = .undefined := by
  induction fs with
  | nil => rfl
  | cons a r ih =>
    obtain ⟨k1, v1⟩ := a
    simp only [fieldKeys, List.map_cons, List.mem_cons, not_or] at h
    have h2 : (k == k1) = false := by simpa using h.1
    simp only [getField, List.lookup, h2]
    exact ih h.2

theorem addToCart_undefined (H : Host) (s : Store) (id : String) :
    addToCart H s id .undefined = addToCart H s id (.num (.fin 1)) := rfl

theorem getField_copyKeys (src : JSValue) (ks : List String) (out : List (String × JSValue))
    (k : String) :
    getField (ks.foldl (fun o k => setField o k (get src k)) out) k
      = if k ∈ ks then get src k else getField out k := by
  induction ks generalizing out with
  | nil => simp
  | cons a r ih =>
    rw [List.foldl_cons, ih]
    by_cases hr : k ∈ r
    · simp [hr]
    · by_cases ha : k = a
      · subst ha
        simp [hr, getField_setField_self]
      · simp [hr, ha, getField_setField_other _ _ _ _ ha]

theorem fieldKeys_copyKeys (src : JSValue) (ks : List String) (out : List (String × JSValue))
    (k : String) :
    k ∈ fieldKeys (ks.foldl (fun o k => setField o k (get src k)) out)
      ↔ k ∈ fieldKeys out ∨ k ∈ ks := by
  induction ks generalizing out with
  | nil => simp
  | cons a r ih =>
    rw [List.foldl_cons, ih, fieldKeys_setField]
    simp only [List.mem_cons]
    tauto

theorem getField_copyInto (out : List (String × JSValue)) (src : JSValue) (k : String) :
    getField (copyInto out src) k = if k ∈ ownKeys src then get src k else getField out k :=
  getField_copyKeys src (ownKeys src) out k

theorem fieldKeys_copyInto (out : List (String × JSValue)) (src : JSValue) (k : String) :
    k ∈ fieldKeys (copyInto out src) ↔ k ∈ fieldKeys out ∨ k ∈ ownKeys src :=
  fieldKeys_copyKeys src (ownKeys src) out k

theorem getField_copy_obj (d : List (String × JSValue)) (k : String) :
    getField (copyInto [] (.obj d)) k = getField d k := by
  rw [getField_copyInto]
  by_cases h : k ∈ ownKeys (.obj d)
  · simp [h, get]
  · simp only [h, if_false]
    rw [getField_eq_undefined_of_not_mem d k h]
    rfl

/-! ## Products -/

theorem normalizeProduct_congr (H : Host) (p q : JSValue) (hp : p.truthy = true)
    (hq : q.truthy = true) (hg : ∀ k, k ≠ "active" → get p k = get q k)
    (ha : (get p "active").isFalse = (get q "active").isFalse) :
    normalizeProduct H p = normalizeProduct H q := by
  simp only [normalizeProduct, normalizeCategories, stringField, numberField, jsAnd, hp, hq, ha,
    if_true,
    hg "id" (by decide), hg "name" (by decide), hg "brand" (by decide),
    hg "category" (by decide), hg "categories" (by decide), hg "price" (by decide),
    hg "compareAtPrice" (by decide), hg "badge" (by decide), hg "image" (by decide),
    hg "images" (by decide), hg "shortDescription" (by decide), hg "description" (by decide),
    hg "highlights" (by decide), hg "specs" (by decide)]

theorem isFalse_bool_not (v : JSValue) :
    (JSValue.bool (!v.isFalse)).isFalse = v.isFalse := by
  cases h : v.isFalse <;> rfl

theorem normalizeProduct_defaultCopy (H : Host) (d : List (String × JSValue)) :
    normalizeProduct H (defaultCopy d) = normalizeProduct H (.obj d) := by
  have hform : defaultCopy d
      = .obj (setField (copyInto [] (.obj d)) "active" (.bool (!(getField d "active").isFalse))) := by
    unfold defaultCopy
    cases h : (getField d "active").isFalse <;> simp [JSValue.truthy, h]
  rw [hform]
  refine normalizeProduct_congr H (.obj _) (.obj d) rfl rfl ?_ ?_
  · intro k hk
    show getField (setField _ _ _) k = getField d k
    rw [getField_setField_other _ _ _ _ hk, getField_copy_obj]
  · show (getField (setField _ _ _) "active").isFalse = (getField d "active").isFalse
    rw [getField_setField_self, isFalse_bool_not]

theorem hasIdAndName_normalized (H : Host) (x : JSValue)
    (h : hasIdAndName (normalizeProduct H x) = true) :
    ∃ a b, get (normalizeProduct H x) "id" = .str a ∧ a ≠ "" ∧
      get (normalizeProduct H x) "name" = .str b ∧ b ≠ "" := by
  refine ⟨trim (stringField H x "id"), trim (stringField H x "name"), rfl, ?_, rfl, ?_⟩
  · intro h0
    have hi : get (normalizeProduct H x) "id" = .str (trim (stringField H x "id")) := rfl
    unfold hasIdAndName at h
    rw [hi, h0, jsAnd_of_falsy _ (by rfl)] at h
    exact absurd h (by decide)
  · intro h0
    have hi : get (normalizeProduct H x) "name" = .str (trim (stringField H x "name")) := rfl
    unfold hasIdAndName jsAnd at h
    rw [hi, h0] at h
    split at h
    · exact absurd h (by decide)
    · rename_i h2
      exact h2 h

theorem loadProducts_persisted (H : Host) (W : Window) (s : Store) (xs : List JSValue)
    (h : s.products = .json (.arr xs)) (hne : xs ≠ []) :
    loadProducts H W s = (xs.map (normalizeProduct H)).filter hasIdAndName := by
  cases xs with
  | nil => exact absurd rfl hne
  | cons a r => simp [loadProducts, safeParse, h]

theorem loadProducts_default (H : Host) (W : Window) (s : Store)
    (h : ¬ ∃ xs, s.products = .json (.arr xs) ∧ xs ≠ []) :
    loadProducts H W s = W.defaultProducts.map (fun d => normalizeProduct H (.obj d)) := by
  have hd : loadProducts H W s
      = W.defaultProducts.map (fun p => normalizeProduct H (defaultCopy p)) := by
    unfold loadProducts
    split
    · rename_i x xs hx
      exfalso
      apply h
      refine ⟨x :: xs, ?_, List.cons_ne_nil _ _⟩
      cases hp : s.products with
      | absent => simp [safeParse, hp] at hx
      | malformed => simp [safeParse, hp] at hx
      | json v =>
        simp only [safeParse, hp] at hx
        rw [hx]
    · rfl
  rw [hd]
  simp only [normalizeProduct_defaultCopy]


/-- C5 (as stated, refuted). With nothing persisted and a default catalog holding a record
without a name, `loadProducts()` returns a product whose name is empty. -/
theorem loadProducts_default_unfiltered :
    (loadProducts asciiHost namelessWindow emptyStore).map (fun p => get p "name")
      = [.str ""] := rfl

/-- C5 (amended). Every product `loadProducts()` returns is the `normalizeProduct` image of a
source record.  When the persisted item is a non-empty array the source record is one of its
elements and the product has a non-empty id and a non-empty name.  Otherwise the source
record is a record of the default catalog, and the returned list is the image of the whole
catalog, records without id or name included. -/
theorem loadProducts_normalized (H : Host) (W : Window) (s : Store) (p : JSValue)
    (hp : p ∈ loadProducts H W s) :
    (∃ xs, s.products = .json (.arr xs) ∧ xs ≠ [] ∧
      ∃ x ∈ xs, p = normalizeProduct H x ∧
        ∃ a b, get p "id" = .str a ∧ a ≠ "" ∧ get p "name" = .str b ∧ b ≠ "") ∨
    ((¬ ∃ xs, s.products = .json (.arr xs) ∧ xs ≠ []) ∧
      loadProducts H W s = W.defaultProducts.map (fun d => normalizeProduct H (.obj d)) ∧
      ∃ d ∈ W.defaultProducts, p = normalizeProduct H (.obj d)) := by
  by_cases h : ∃ xs, s.products = .json (.arr xs) ∧ xs ≠ []
  · left
    obtain ⟨xs, hs, hne⟩ := h
    rw [loadProducts_persisted H W s xs hs hne, List.mem_filter, List.mem_map] at hp
    obtain ⟨⟨x, hx, rfl⟩, hv⟩ := hp
    exact ⟨xs, hs, hne, x, hx, rfl, hasIdAndName_normalized H x hv⟩
  · right
    have hd := loadProducts_default H W s h
    rw [hd, List.mem_map] at hp
    obtain ⟨d, hd1, hd2⟩ := hp
    exact ⟨h, hd, d, hd1, hd2.symm⟩

/-- Witness for C5 (amended): the one product loaded from `sampleProductStore`. -/
theorem loadProducts_normalized_witness :
    normalizeProduct asciiHost sampleRecord
      ∈ loadProducts asciiHost namelessWindow sampleProductStore ∧
    ∃ a b, get (normalizeProduct asciiHost sampleRecord) "id" = .str a ∧ a ≠ "" ∧
      get (normalizeProduct asciiHost sampleRecord) "name" = .str b ∧ b ≠ "" := by
  have hmem : normalizeProduct asciiHost sampleRecord
      ∈ loadProducts asciiHost namelessWindow sampleProductStore := by
    rw [loadProducts_persisted asciiHost namelessWindow sampleProductStore [sampleRecord] rfl
      (List.cons_ne_nil _ _), List.mem_filter]
    exact ⟨List.mem_map_of_mem _ (List.mem_singleton_self _), rfl⟩
  refine ⟨hmem, ?_⟩
  rcases loadProducts_normalized asciiHost namelessWindow sampleProductStore _ hmem with
    ⟨_, _, _, _, _, _, h⟩ | ⟨h, _⟩
  · exact h
  · exact absurd ⟨[sampleRecord], rfl, List.cons_ne_nil _ _⟩ h

/-! ## JSON round trip -/

mutual
theorem jsonRoundTrip_of_isJSON : ∀ v : JSValue, isJSON v = true → jsonRoundTrip v = v
  | .undefined, h => by simp [isJSON] at h
  | .null, _ => rfl
  | .bool _, _ => rfl
  | .num .nan, h => by simp [isJSON, JSNum.isFinite] at h
  | .num .posInf, h => by simp [isJSON, JSNum.isFinite] at h
  | .num .negInf, h => by simp [isJSON, JSNum.isFinite] at h
  | .num (.fin _), _ => rfl
  | .str _, _ => rfl
  | .arr xs, h => by
      have hx : allJSON xs = true := by simpa [isJSON] using h
      simp only [jsonRoundTrip, roundTripElems_of_allJSON xs hx]
  | .obj fs, h => by
      have hx : allFieldsJSON fs = true := by simpa [isJSON] using h
      simp only [jsonRoundTrip, roundTripFields_of_allFieldsJSON fs hx]
theorem roundTripElems_of_allJSON : ∀ xs : List JSValue, allJSON xs = true → roundTripElems xs = xs
  | [], _ => rfl
  | x :: r, h => by
      have hx : isJSON x = true ∧ allJSON r = true := by simpa [allJSON] using h
      simp only [roundTripElems, jsonRoundTrip_of_isJSON x hx.1, roundTripElems_of_allJSON r hx.2]
theorem roundTripFields_of_allFieldsJSON :
    ∀ fs : List (String × JSValue), allFieldsJSON fs = true → roundTripFields fs = fs
  | [], _ => rfl
  | (k, v) :: r, h => by
      have hx : isJSON v = true ∧ allFieldsJSON r = true := by simpa [allFieldsJSON] using h
      have hv := jsonRoundTrip_of_isJSON v hx.1
      have hr := roundTripFields_of_allFieldsJSON r hx.2
      cases v with
      | undefined => simp [isJSON] at hx
      | null => simp only [roundTripFields, hr, hv]
      | bool b => simp only [roundTripFields, hr, hv]
      | num n => simp only [roundTripFields, hr, hv]
      | str s => simp only [roundTripFields, hr, hv]
      | arr xs => simp only [roundTripFields, hr, hv]
      | obj gs => simp only [roundTripFields, hr, hv]
end

theorem allJSON_iff (xs : List JSValue) : allJSON xs = true ↔ ∀ x ∈ xs, isJSON x = true := by
  induction xs with
  | nil => simp [allJSON]
  | cons a r ih => simp [allJSON, ih]


/-! ## Export and import -/

theorem loadSettings_eq_obj (W : Window) (s : Store) :
    ∃ fs, loadSettings W s = .obj fs ∧
      ∀ k, k ∈ fieldKeys (copyInto [] (.obj W.defaultSettings)) → k ∈ fieldKeys fs := by
  unfold loadSettings
  simp only []
  split
  · exact ⟨_, rfl, fun k hk => (fieldKeys_copyInto _ _ k).2 (Or.inl hk)⟩
  · exact ⟨_, rfl, fun k hk => hk⟩

theorem loadSettings_json_obj (W : Window) (s : Store) (fs : List (String × JSValue))
    (h : s.settings = .json (.obj fs)) :
    loadSettings W s = .obj (copyInto (copyInto [] (.obj W.defaultSettings)) (.obj fs)) := by
  simp [loadSettings, safeParse, h, JSValue.truthy, JSValue.typeofObject]

theorem loadProducts_image (H : Host) (W : Window) (s : Store) (p : JSValue)
    (hp : p ∈ loadProducts H W s) : ∃ x, p = normalizeProduct H x := by
  by_cases h : ∃ xs, s.products = .json (.arr xs) ∧ xs ≠ []
  · obtain ⟨xs, hs, hne⟩ := h
    rw [loadProducts_persisted H W s xs hs hne, List.mem_filter, List.mem_map] at hp
    obtain ⟨⟨x, _, rfl⟩, _⟩ := hp
    exact ⟨x, rfl⟩
  · rw [loadProducts_default H W s h, List.mem_map] at hp
    obtain ⟨d, _, hd⟩ := hp
    exact ⟨_, hd.symm⟩

theorem numbers_of_isJSON (H : Host) (x : JSValue) (h : isJSON (normalizeProduct H x) = true) :
    numberField H x "price" ≠ .nan ∧ numberField H x "compareAtPrice" ≠ .nan := by
  rw [normalizeProduct_eq] at h
  simp only [isJSON, allFieldsJSON, Bool.and_eq_true] at h
  obtain ⟨_, _, _, _, _, h1, h2, _⟩ := h
  constructor
  · intro h0
    rw [h0] at h1
    exact absurd h1 (by decide)
  · intro h0
    rw [h0] at h2
    exact absurd h2 (by decide)

theorem importProducts_document (s : Store) (doc : JSValue) (L : List JSValue)
    (fs : List (String × JSValue)) (ht : doc.truthy = true)
    (h1 : get doc "products" = .arr L) (h2 : get doc "settings" = .obj fs) :
    importProducts s (some doc) =
      { s with products := stringified (.arr L), settings := stringified (.obj fs) } := by
  have ho : (JSValue.obj fs).truthy = true := rfl
  unfold importProducts
  simp only [h1, h2, ht, ho, jsAnd, JSValue.isArray, JSValue.typeofObject,
    Bool.and_self, if_true, saveProducts, saveSettings]

theorem exportThenImport_eq (H : Host) (W : Window) (s : Store) (now : String)
    (hjson : ∀ p ∈ loadProducts H W s, isJSON p = true)
    (hset : isJSON (loadSettings W s) = true) :
    exportThenImport H W s now =
      { s with products := .json (.arr (loadProducts H W s)),
               settings := .json (loadSettings W s) } := by
  obtain ⟨fs, hfs, _⟩ := loadSettings_eq_obj W s
  have hL : roundTripElems (loadProducts H W s) = loadProducts H W s :=
    roundTripElems_of_allJSON _ ((allJSON_iff _).2 hjson)
  have hS : jsonRoundTrip (.obj fs) = .obj fs := jsonRoundTrip_of_isJSON _ (hfs ▸ hset)
  have hS2 : roundTripFields fs = fs := by
    simp only [jsonRoundTrip] at hS
    exact JSValue.obj.inj hS
  have hdoc : jsonRoundTrip (exportData H W s now) =
      .obj [("settings", .obj fs), ("products", .arr (loadProducts H W s)),
        ("exportedAt", .str now), ("app", .str "TimeRush")] := by
    unfold exportData
    rw [hfs]
    simp only [jsonRoundTrip, roundTripFields, hL, hS2]
  unfold exportThenImport exportedFile
  rw [hdoc, importProducts_document s (.obj [("settings", .obj fs),
    ("products", .arr (loadProducts H W s)), ("exportedAt", .str now),
    ("app", .str "TimeRush")]) (loadProducts H W s) fs rfl rfl rfl, hfs]
  have h3 : stringified (.arr (loadProducts H W s)) = .json (.arr (loadProducts H W s)) := by
    simp only [stringified, jsonRoundTrip, hL]
  have h4 : stringified (.obj fs) = .json (.obj fs) := by
    simp only [stringified, jsonRoundTrip, hS2]
  rw [h3, h4]

theorem loadProducts_after (H : Host) (W : Window) (s : Store) (now : String)
    (hne : loadProducts H W s ≠ [])
    (hvalid : ∀ p ∈ loadProducts H W s, hasIdAndName p = true)
    (hjson : ∀ p ∈ loadProducts H W s, isJSON p = true)
    (hset : isJSON (loadSettings W s) = true) :
    loadProducts H W (exportThenImport H W s now) = loadProducts H W s := by
  rw [exportThenImport_eq H W s now hjson hset]
  rw [loadProducts_persisted H W _ (loadProducts H W s) rfl hne]
  have hmap : (loadProducts H W s).map (normalizeProduct H) = loadProducts H W s := by
    conv_rhs => rw [← List.map_id (loadProducts H W s)]
    apply List.map_congr_left
    intro p hp
    obtain ⟨x, rfl⟩ := loadProducts_image H W s p hp
    have hn := numbers_of_isJSON H x (hjson _ hp)
    exact normalizeProduct_idempotent_of_numbers H x hn.1 hn.2
  rw [hmap]
  exact List.filter_eq_self.2 hvalid

theorem loadSettings_after (H : Host) (W : Window) (s : Store) (now : String)
    (hjson : ∀ p ∈ loadProducts H W s, isJSON p = true)
    (hset : isJSON (loadSettings W s) = true) (k : String) :
    get (loadSettings W (exportThenImport H W s now)) k = get (loadSettings W s) k ∧
    (k ∈ ownKeys (loadSettings W (exportThenImport H W s now))
      ↔ k ∈ ownKeys (loadSettings W s)) := by
  rw [exportThenImport_eq H W s now hjson hset]
  obtain ⟨fs, hfs, hsub⟩ := loadSettings_eq_obj W s
  rw [loadSettings_json_obj W _ fs (by rw [hfs]), hfs]
  constructor
  · show getField (copyInto _ _) k = getField fs k
    rw [getField_copyInto]
    by_cases hk : k ∈ ownKeys (.obj fs)
    · simp [hk, get]
    · simp only [hk, if_false]
      have hk2 : ¬ k ∈ fieldKeys (copyInto [] (.obj W.defaultSettings)) := fun h => hk (hsub k h)
      rw [getField_eq_undefined_of_not_mem _ _ hk2, getField_eq_undefined_of_not_mem _ _ hk]
  · show k ∈ fieldKeys (copyInto _ _) ↔ k ∈ fieldKeys fs
    rw [fieldKeys_copyInto]
    constructor
    · rintro (h | h)
      · exact hsub k h
      · exact h
    · exact fun h => Or.inr h


/-- C6 (as stated, refuted). Two stores on which export followed by import changes what
`loadProducts()` returns: a persisted price `abc` is `NaN` before and `0` after, and a
persisted list whose only record is empty gives the empty list before and the default
catalog after. -/
theorem export_import_changes_products :
    loadProducts asciiHost sampleWindow (exportThenImport asciiHost sampleWindow textPriceStore "t")
      ≠ loadProducts asciiHost sampleWindow textPriceStore ∧
    loadProducts asciiHost sampleWindow
        (exportThenImport asciiHost sampleWindow blankRecordStore "t")
      ≠ loadProducts asciiHost sampleWindow blankRecordStore := by
  constructor
  · intro h
    have h1 : (loadProducts asciiHost sampleWindow
        (exportThenImport asciiHost sampleWindow textPriceStore "t")).map
          (fun p => get p "price") = [.num (.fin 0)] := rfl
    have h2 : (loadProducts asciiHost sampleWindow textPriceStore).map
          (fun p => get p "price") = [.num .nan] := rfl
    rw [h, h2] at h1
    simp at h1
  · intro h
    have h1 : (loadProducts asciiHost sampleWindow
        (exportThenImport asciiHost sampleWindow blankRecordStore "t")).length = 1 := rfl
    have h2 : (loadProducts asciiHost sampleWindow blankRecordStore).length = 0 := rfl
    rw [h, h2] at h1
    exact absurd h1 (by decide)

/-- C6 (amended). When the product list returned before the export is non-empty, every product
in it has an id and a name and is a JSON value (finite prices, JSON images, highlights and
specs), and the settings object returned before the export is a JSON value, then after
export and import `loadProducts()` returns the same list and `loadSettings()` an object with
the same keys and the same value at every key. -/
theorem export_import_round_trip (H : Host) (W : Window) (s : Store) (now : String)
    (hne : loadProducts H W s ≠ [])
    (hvalid : ∀ p ∈ loadProducts H W s, hasIdAndName p = true)
    (hjson : ∀ p ∈ loadProducts H W s, isJSON p = true)
    (hset : isJSON (loadSettings W s) = true) :
    loadProducts H W (exportThenImport H W s now) = loadProducts H W s ∧
    ∀ k, get (loadSettings W (exportThenImport H W s now)) k = get (loadSettings W s) k ∧
      (k ∈ ownKeys (loadSettings W (exportThenImport H W s now))
        ↔ k ∈ ownKeys (loadSettings W s)) :=
  ⟨loadProducts_after H W s now hne hvalid hjson hset,
    fun k => loadSettings_after H W s now hjson hset k⟩

/-- Witness for C6 (amended): `sampleProductStore` under `sampleWindow`. -/
theorem export_import_round_trip_witness :
    loadProducts asciiHost sampleWindow sampleProductStore ≠ [] ∧
    (∀ p ∈ loadProducts asciiHost sampleWindow sampleProductStore, hasIdAndName p = true) ∧
    (∀ p ∈ loadProducts asciiHost sampleWindow sampleProductStore, isJSON p = true) ∧
    isJSON (loadSettings sampleWindow sampleProductStore) = true ∧
    loadProducts asciiHost sampleWindow
        (exportThenImport asciiHost sampleWindow sampleProductStore "t")
      = loadProducts asciiHost sampleWindow sampleProductStore := by
  have hL : loadProducts asciiHost sampleWindow sampleProductStore
      = [normalizeProduct asciiHost sampleRecord] := rfl
  have h1 : loadProducts asciiHost sampleWindow sampleProductStore ≠ [] := by
    rw [hL]
    exact List.cons_ne_nil _ _
  have h2 : ∀ p ∈ loadProducts asciiHost sampleWindow sampleProductStore,
      hasIdAndName p = true := by
    intro p hp
    rw [hL, List.mem_singleton] at hp
    rw [hp]
    rfl
  have h3 : ∀ p ∈ loadProducts asciiHost sampleWindow sampleProductStore,
      isJSON p = true := by
    intro p hp
    rw [hL, List.mem_singleton] at hp
    rw [hp]
    rfl
  have h4 : isJSON (loadSettings sampleWindow sampleProductStore) = true := rfl
  exact ⟨h1, h2, h3, h4,
    (export_import_round_trip asciiHost sampleWindow sampleProductStore "t" h1 h2 h3 h4).1⟩

/-! ## Discount -/

theorem truthy_of_get_num (v : JSValue) (k : String) (n : JSNum) (h : get v k = .num n) :
    v.truthy = true := by
  cases v with
  | arr xs => rfl
  | obj fs => rfl
  | undefined => simp [get] at h
  | null => simp [get] at h
  | bool b => simp [get] at h
  | num m => simp [get] at h
  | str s => simp [get] at h

theorem numberField_of_num (H : Host) (v : JSValue) (k : String) (n : JSNum)
    (h : get v k = .num n) :
    numberField H v k = if n = .nan then .fin 0 else n := by
  unfold numberField
  rw [jsAnd_of_truthy _ (truthy_of_get_num v k n h), h]
  cases n with
  | nan => rfl
  | posInf => rfl
  | negInf => rfl
  | fin q =>
    by_cases hq : q = 0
    · subst hq
      rfl
    · rw [jsOr_of_truthy]
      · simp [toNumber]
      · simp [JSValue.truthy, JSNum.truthy, hq]

/-- On the same store a form with a fresh id is saved: the products entry changes. -/
theorem saveFromModal_success_writes :
    (saveFromModal asciiHost sampleWindow sampleProductStore
      { duplicateForm with pId := "w2" }).2 = "Saved" := rfl

/-! ## Admin credential -/

theorem numberField_of_falsy (H : Host) (P : JSValue) (k : String)
    (h : (jsAnd P (get P k)).truthy = false) : numberField H P k = .fin 0 := by
  unfold numberField
  rw [jsOr_of_falsy _ h]
  rfl

theorem numberField_of_str (H : Host) (P : JSValue) (k s : String) (hP : P.truthy = true)
    (h : get P k = .str s) : numberField H P k = stringToNumber s := by
  unfold numberField
  rw [jsAnd_of_truthy _ hP, h]
  by_cases hs : s = ""
  · subst hs
    rfl
  · rw [jsOr_of_truthy _ (by simp [truthy_str, hs])]
    rfl

/-- C11 (as stated, refuted). A record whose price is the text `abc` normalizes to a product
whose price is `NaN`, not `0`; so does one whose compare-at price is an object. -/
theorem normalizeProduct_text_price_is_nan :
    get (normalizeProduct asciiHost (.obj [("price", .str "abc")])) "price" = .num .nan ∧
    get (normalizeProduct asciiHost (.obj [("price", .str "abc")])) "price" ≠ .num (.fin 0) ∧
    get (normalizeProduct asciiHost (.obj [("compareAtPrice", .obj [])])) "compareAtPrice"
      = .num .nan := by
  refine ⟨rfl, ?_, rfl⟩
  have h : get (normalizeProduct asciiHost (.obj [("price", .str "abc")])) "price"
      = .num .nan := rfl
  rw [h]
  simp

/-- C11 (amended). For every raw product record the `price` and `compareAtPrice` of the
normalized product are numbers.  The field is exactly `0` whenever the raw field is missing
or falsy (no record, no such field, `null`, `false`, `0`, the empty string).  A raw finite
number is kept, and a raw string is converted as `Number` converts it, so that a non-numeric
string gives `NaN`. -/
theorem normalizeProduct_number_coercion (H : Host) (P : JSValue) (k : String)
    (hk : k = "price" ∨ k = "compareAtPrice") :
    (∃ n, get (normalizeProduct H P) k = .num n) ∧
    ((jsAnd P (get P k)).truthy = false → get (normalizeProduct H P) k = .num (.fin 0)) ∧
    (P.truthy = false ∨ get P k = .undefined →
      get (normalizeProduct H P) k = .num (.fin 0)) ∧
    (P.truthy = true → ∀ q : ℚ, get P k = .num (.fin q) →
      get (normalizeProduct H P) k = .num (.fin q)) ∧
    (P.truthy = true → ∀ s : String, get P k = .str s →
      get (normalizeProduct H P) k = .num (stringToNumber s)) ∧
    stringToNumber "abc" = .nan := by
  have hget : get (normalizeProduct H P) k = .num (numberField H P k) := by
    rcases hk with rfl | rfl <;> rfl
  rw [hget]
  refine ⟨⟨_, rfl⟩, fun h => ?_, fun h => ?_, fun hP q hq => ?_, fun hP s hs => ?_, by decide⟩
  · rw [numberField_of_falsy H P k h]
  · have hf : (jsAnd P (get P k)).truthy = false := by
      rcases h with h | h
      · rw [jsAnd_of_falsy _ h]
        exact h
      · unfold jsAnd
        split
        · rw [h]
          rfl
        · rename_i hn
          simpa using hn
    rw [numberField_of_falsy H P k hf]
  · rw [numberField_of_num H P k _ hq]
    simp
  · rw [numberField_of_str H P k s hP hs]

/-- Witness for C11 (amended): the price field of `sampleRecord`, a JSON number. -/
theorem normalizeProduct_number_coercion_witness :
    ("price" = "price" ∨ "price" = "compareAtPrice") ∧
    get (normalizeProduct asciiHost sampleRecord) "price" = .num (.fin 120) ∧
    get (normalizeProduct asciiHost sampleRecord) "compareAtPrice" = .num (.fin 0) :=
  ⟨Or.inl rfl,
    (normalizeProduct_number_coercion asciiHost sampleRecord "price" (Or.inl rfl)).2.2.2.1
      rfl 120 rfl,
    (normalizeProduct_number_coercion asciiHost sampleRecord "compareAtPrice"
      (Or.inr rfl)).2.2.1 (Or.inr rfl)⟩

end TimeRush
